import Mathlib

/-!
Shallow embedding of YipBox.h (signal/slot connection registry).

Objects are modelled by numeric identities: a receiver id indexes the
`HasSlots` side (its `active` flag and its `senders` back-reference set),
a signal id indexes the `SignalBaseTyped` side (its ordered list of
connection bindings).  Member-function pointers are modelled as numeric
slot ids.  The lock policy (`SingleThreaded` / `MultiThreadedLocal` /
`MultiThreadedGlobal`) only brackets each operation with lock/unlock and
has no effect on the sequential state transformation, so it is not
modelled; each Lean operation corresponds to one complete critical
section of the C++ code.
-/

namespace YipBox

/-- A connection binding, mirroring `Connection` in YipBox.h: the receiver
object it targets (`object`, here `dest`) and the member function pointer it
stores (`function`, here `slot`), both as numeric identities.
`Connection::getDestination` is the `dest` field; `Connection::clone` copies
both fields; `Connection::duplicate newDestination` keeps `slot` and replaces
`dest`. -/
structure Binding where
  dest : Nat
  slot : Nat
deriving DecidableEq

/-- Pointwise update of a function-backed table. -/
def updF {α : Type} (k : Nat) (v : α) (f : Nat → α) : Nat → α :=
  fun x => if x = k then v else f x

/-- `std::set` insertion, on the model of a sender set as a sorted
duplicate-free list (a `std::set` iterates in key order). -/
def setInsert (x : Nat) : List Nat → List Nat
  | [] => [x]
  | y :: ys =>
    if x = y then y :: ys
    else if x < y then x :: y :: ys
    else y :: setInsert x ys

/-- `std::set::erase` by value. -/
def setErase (x : Nat) (s : List Nat) : List Nat :=
  s.filter (fun y => y != x)

/-- The global state of all receivers and signals.
`active rid` and `senders rid` are receiver `rid`'s `HasSlots::active` flag
and `HasSlots::senders` set; `slots sid` is signal `sid`'s
`SignalBaseTyped::connectedSlots` list, in insertion order. -/
structure World where
  active : Nat → Bool
  senders : Nat → List Nat
  slots : Nat → List Binding

/-- `HasSlots::signalConnect` (YipBox.h 238-241): insert signal `sid` into
receiver `rid`'s sender set. -/
def signalConnect (w : World) (rid sid : Nat) : World :=
  { w with senders := updF rid (setInsert sid (w.senders rid)) w.senders }

/-- `HasSlots::signalDisconnect` (YipBox.h 243-246): erase signal `sid` from
receiver `rid`'s sender set. -/
def signalDisconnect (w : World) (rid sid : Nat) : World :=
  { w with senders := updF rid (setErase sid (w.senders rid)) w.senders }

/-- `HasSlots::isActive` (YipBox.h 259-261). -/
def isActive (w : World) (rid : Nat) : Bool :=
  w.active rid

/-- `HasSlots::setActive` (YipBox.h 263-265). -/
def setActive (w : World) (rid : Nat) (b : Bool) : World :=
  { w with active := updF rid b w.active }

/-- `SignalSpecific::connect` (YipBox.h 407-414): push_back a new
`Connection(object, function)` onto `connectedSlots`, then
`object->signalConnect(this)`. -/
def connect (w : World) (sid rid fid : Nat) : World :=
  signalConnect { w with slots := updF sid (w.slots sid ++ [⟨rid, fid⟩]) w.slots } rid sid

/-- `SignalSpecific::shoot` (YipBox.h 416-425): walk `connectedSlots` in
order and invoke every binding whose destination `isActive()`.  The loop
body only reads the registry, so the world is unchanged; the observable is
the trace of bindings invoked, in order. -/
def shootTrace (w : World) (sid : Nat) : List Binding :=
  (w.slots sid).filter (fun b => w.active b.dest)

/-- The loop of `SignalSpecific::shoot` when invoking a binding `b` may
raise (`raises b = true`): bindings are invoked in order, inactive
destinations are skipped, and the first raising invocation aborts the walk.
Returns the bindings that fired before the abort and the escaping exception
(the raising binding itself: no translation). -/
def shootExcList (act : Nat → Bool) (raises : Binding → Bool) :
    List Binding → List Binding × Option Binding
  | [] => ([], none)
  | b :: rest =>
    if act b.dest then
      if raises b then ([], some b)
      else
        let p := shootExcList act raises rest
        (b :: p.1, p.2)
    else shootExcList act raises rest

/-- `SignalSpecific::shoot` under a possibly-failing slot: resulting world,
fired prefix, escaping exception.  The loop never writes to the registry,
so the world comes back as-is even when a slot raises (the `LockBlock`
destructor merely releases the lock during unwinding). -/
def shootExc (w : World) (sid : Nat) (raises : Binding → Bool) :
    World × List Binding × Option Binding :=
  (w, shootExcList w.active raises (w.slots sid))

/-- The loop of `SignalBaseTyped::disconnect` (YipBox.h 312-326): walk the
binding list of signal `sid`; each binding whose destination is `rid` is
deleted and `rid`'s sender set receives one `signalDisconnect(this)` call
(threaded here as `sset`).  Returns the surviving binding list and the final
sender set of `rid`. -/
def disconnectLoop (sid rid : Nat) : List Binding → List Nat → List Binding × List Nat
  | [], sset => ([], sset)
  | b :: rest, sset =>
    if b.dest = rid then disconnectLoop sid rid rest (setErase sid sset)
    else
      let p := disconnectLoop sid rid rest sset
      (b :: p.1, p.2)

/-- `SignalBaseTyped::disconnect` (YipBox.h 312-326). -/
def disconnect (w : World) (sid rid : Nat) : World :=
  let p := disconnectLoop sid rid (w.slots sid) (w.senders rid)
  { w with slots := updF sid p.1 w.slots, senders := updF rid p.2 w.senders }

/-- `SignalBaseTyped::disconnectSlot` (YipBox.h 328-341): delete every
binding of signal `sid` whose destination is `rid`; the receiver's sender
set is not touched (the caller, `HasSlots::disconnectAll`, clears it). -/
def disconnectSlot (w : World) (sid rid : Nat) : World :=
  { w with slots := updF sid ((w.slots sid).filter (fun b => b.dest != rid)) w.slots }

/-- `SignalBaseTyped::duplicateSlot` (YipBox.h 343-353): for every binding
of signal `sid` targeting `old`, push_back `duplicate(new)` — same slot,
destination `new`.  The C++ loop iterates the `std::list` while appending
to its back, so it also visits the appended duplicates; their destination
is `newT`, which differs from `oldT` whenever the copy constructor calls
this (distinct objects), so they are not re-duplicated and the net effect
is this append. -/
def duplicateSlot (w : World) (sid oldT newT : Nat) : World :=
  { w with
    slots := updF sid
      (w.slots sid ++
        ((w.slots sid).filter (fun b => b.dest == oldT)).map (fun b => ⟨newT, b.slot⟩))
      w.slots }

/-- One iteration of the loop in the `HasSlots` copy constructor
(YipBox.h 223-232): `(*i)->duplicateSlot(&src, this)` then
`senders.insert(*i)`. -/
def HasSlots.copyStep (src newR : Nat) (acc : World) (sid : Nat) : World :=
  let acc1 := duplicateSlot acc sid src newR
  { acc1 with senders := updF newR (setInsert sid (acc1.senders newR)) acc1.senders }

/-- `HasSlots` copy constructor (YipBox.h 223-232): the new receiver `newR`
starts with an empty sender set and `active` copied from `src`; then for
every signal in `src`'s sender set, duplicate its bindings targeting `src`
to target `newR` and record the signal on `newR`. -/
def HasSlots.copy (w : World) (src newR : Nat) : World :=
  (w.senders src).foldl (HasSlots.copyStep src newR)
    { w with active := updF newR (w.active src) w.active,
             senders := updF newR [] w.senders }

/-- One iteration of the loop in `HasSlots::disconnectAll` (YipBox.h
248-257): `(*i)->disconnectSlot(this)`. -/
def HasSlots.dAllStep (rid : Nat) (acc : World) (sid : Nat) : World :=
  disconnectSlot acc sid rid

/-- `HasSlots::disconnectAll` (YipBox.h 248-257): every recorded signal
drops its bindings targeting `rid`, then `rid`'s sender set is cleared. -/
def HasSlots.disconnectAll (w : World) (rid : Nat) : World :=
  let w1 := (w.senders rid).foldl (HasSlots.dAllStep rid) w
  { w1 with senders := updF rid [] w1.senders }

/-- `HasSlots::~HasSlots` (YipBox.h 234-236): the destructor's observable
effect on the rest of the world is exactly `disconnectAll`. -/
def HasSlots.destroy (w : World) (rid : Nat) : World :=
  HasSlots.disconnectAll w rid

/-- One iteration of the loop in the `SignalBaseTyped` copy constructor
(YipBox.h 280-288): `(*i)->getDestination()->signalConnect(this)` then
`connectedSlots.push_back((*i)->clone())`; `clone` copies destination and
slot unchanged. -/
def SignalBaseTyped.copyStep (newS : Nat) (acc : World) (b : Binding) : World :=
  let acc1 := signalConnect acc b.dest newS
  { acc1 with slots := updF newS (acc1.slots newS ++ [b]) acc1.slots }

/-- `SignalBaseTyped` copy constructor (YipBox.h 280-288): the new signal
`newS` starts with an empty binding list; then each binding of `src` is
cloned onto `newS` after recording `newS` on its destination receiver. -/
def SignalBaseTyped.copy (w : World) (src newS : Nat) : World :=
  (w.slots src).foldl (SignalBaseTyped.copyStep newS)
    { w with slots := updF newS [] w.slots }

/-- One iteration of the loop shared by `SignalBaseTyped::disconnectAll`
(YipBox.h 300-310) and `~SignalBaseTyped` (YipBox.h 290-298):
`(*i)->getDestination()->signalDisconnect(this)` then `delete *i`. -/
def SignalBaseTyped.dAllStep (sid : Nat) (acc : World) (b : Binding) : World :=
  signalDisconnect acc b.dest sid

/-- `SignalBaseTyped::disconnectAll` (YipBox.h 300-310): notify each
binding's destination to forget `sid`, delete every binding, clear the
list. -/
def SignalBaseTyped.disconnectAll (w : World) (sid : Nat) : World :=
  let w1 := (w.slots sid).foldl (SignalBaseTyped.dAllStep sid) w
  { w1 with slots := updF sid [] w1.slots }

/-- `SignalBaseTyped::~SignalBaseTyped` (YipBox.h 290-298): the destructor
runs the same notification loop as `disconnectAll` and the binding list
dies with the object, so its observable effect is the same. -/
def SignalBaseTyped.destroy (w : World) (sid : Nat) : World :=
  SignalBaseTyped.disconnectAll w sid

/-! ### Basic lemmas about the table and set primitives -/

theorem updF_self {α : Type} (k : Nat) (v : α) (f : Nat → α) : updF k v f k = v := by
  simp [updF]

theorem updF_ne {α : Type} {x k : Nat} (v : α) (f : Nat → α) (h : x ≠ k) :
    updF k v f x = f x := by
  simp [updF, h]

theorem updF_apply_self {α : Type} (k : Nat) (f : Nat → α) : updF k (f k) f = f :=
  funext fun x => by by_cases hx : x = k <;> simp [updF, hx]

theorem mem_setErase {x y : Nat} {s : List Nat} : y ∈ setErase x s ↔ y ∈ s ∧ y ≠ x := by
  simp [setErase, List.mem_filter]

theorem setErase_not_mem (x : Nat) (s : List Nat) : x ∉ setErase x s := by
  simp [mem_setErase]

theorem setErase_idem (x : Nat) (s : List Nat) :
    setErase x (setErase x s) = setErase x s := by
  simp [setErase, List.filter_filter]

theorem mem_setInsert {x y : Nat} (s : List Nat) : y ∈ setInsert x s ↔ y = x ∨ y ∈ s := by
  induction s with
  | nil => simp [setInsert]
  | cons z zs ih =>
    by_cases h1 : x = z
    · subst h1
      simp [setInsert]
    · by_cases h2 : x < z
      · simp [setInsert, h1, h2]
      · simp [setInsert, h1, h2, ih]
        tauto

/-! ### The disconnect loop -/

theorem disconnectLoop_fst (sid rid : Nat) (bs : List Binding) (ss : List Nat) :
    (disconnectLoop sid rid bs ss).1 = bs.filter (fun b => b.dest != rid) := by
  induction bs generalizing ss with
  | nil => rfl
  | cons b rest ih =>
    by_cases h : b.dest = rid
    · simp [disconnectLoop, h, ih]
    · simp [disconnectLoop, h, ih]

theorem disconnectLoop_snd (sid rid : Nat) (bs : List Binding) (ss : List Nat) :
    (disconnectLoop sid rid bs ss).2
      = if bs.any (fun b => b.dest == rid) then setErase sid ss else ss := by
  induction bs generalizing ss with
  | nil => rfl
  | cons b rest ih =>
    by_cases h : b.dest = rid
    · have hstep : disconnectLoop sid rid (b :: rest) ss
          = disconnectLoop sid rid rest (setErase sid ss) := by
        simp [disconnectLoop, h]
      rw [hstep, ih, List.any_cons]
      by_cases hr : rest.any (fun b => b.dest == rid) <;>
        simp [h, hr, setErase_idem]
    · simp [disconnectLoop, h, ih]

/-- A `disconnect` that matches no binding leaves the world untouched. -/
theorem disconnect_eq_of_no_match (w : World) (sid rid : Nat)
    (h : ∀ b ∈ w.slots sid, b.dest ≠ rid) :
    disconnect w sid rid = w := by
  have h1 : (disconnectLoop sid rid (w.slots sid) (w.senders rid)).1 = w.slots sid := by
    rw [disconnectLoop_fst]
    exact List.filter_eq_self.mpr (fun b hb => by simp [h b hb])
  have h2 : (disconnectLoop sid rid (w.slots sid) (w.senders rid)).2 = w.senders rid := by
    rw [disconnectLoop_snd]
    have hany : (w.slots sid).any (fun b => b.dest == rid) = false := by
      simp only [List.any_eq_false]
      intro b hb
      simp [h b hb]
    simp [hany]
  simp only [disconnect]
  rw [h1, h2, updF_apply_self, updF_apply_self]

/-! ### The shoot loop under a failing slot -/

theorem shootExcList_eq_of_split (act : Nat → Bool) (raises : Binding → Bool)
    (l : List Binding) :
    ∀ pre post : List Binding, ∀ bk : Binding,
      l.filter (fun b => act b.dest) = pre ++ bk :: post →
      (∀ b ∈ pre, raises b = false) → raises bk = true →
      shootExcList act raises l = (pre, some bk) := by
  induction l with
  | nil =>
    intro pre post bk h _ _
    simp at h
  | cons b rest ih =>
    intro pre post bk hsplit hpre hk
    by_cases ha : act b.dest
    · rw [List.filter_cons_of_pos (by simp [ha])] at hsplit
      cases pre with
      | nil =>
        simp only [List.nil_append, List.cons.injEq] at hsplit
        have hb : b = bk := hsplit.1
        subst hb
        simp [shootExcList, ha, hk]
      | cons p ps =>
        simp only [List.cons_append, List.cons.injEq] at hsplit
        obtain ⟨hb, hrest⟩ := hsplit
        subst hb
        have hbr : raises b = false := hpre b (List.mem_cons_self b ps)
        have ihr := ih ps post bk hrest (fun x hx => hpre x (List.mem_cons_of_mem b hx)) hk
        simp [shootExcList, ha, hbr, ihr]
    · rw [List.filter_cons_of_neg (by exact ha)] at hsplit
      simp only [shootExcList, if_neg ha]
      exact ih pre post bk hsplit hpre hk

/-! ### The signal copy-constructor loop -/

theorem sigCopy_foldl_active (newS : Nat) (bs : List Binding) (acc : World) :
    (bs.foldl (SignalBaseTyped.copyStep newS) acc).active = acc.active := by
  induction bs generalizing acc with
  | nil => rfl
  | cons b rest ih =>
    rw [List.foldl_cons, ih]
    rfl

theorem sigCopy_foldl_slots_new (newS : Nat) (bs : List Binding) (acc : World) :
    (bs.foldl (SignalBaseTyped.copyStep newS) acc).slots newS = acc.slots newS ++ bs := by
  induction bs generalizing acc with
  | nil => simp
  | cons b rest ih =>
    rw [List.foldl_cons, ih]
    simp [SignalBaseTyped.copyStep, signalConnect, updF_self]

theorem sigCopy_foldl_slots_ne (newS x : Nat) (hx : x ≠ newS) (bs : List Binding)
    (acc : World) :
    (bs.foldl (SignalBaseTyped.copyStep newS) acc).slots x = acc.slots x := by
  induction bs generalizing acc with
  | nil => rfl
  | cons b rest ih =>
    rw [List.foldl_cons, ih]
    simp [SignalBaseTyped.copyStep, signalConnect, updF_ne _ _ hx]

theorem sigCopy_foldl_senders_pres (newS r : Nat) (bs : List Binding) (acc : World)
    (h : newS ∈ acc.senders r) :
    newS ∈ (bs.foldl (SignalBaseTyped.copyStep newS) acc).senders r := by
  induction bs generalizing acc with
  | nil => exact h
  | cons b rest ih =>
    rw [List.foldl_cons]
    apply ih
    by_cases hr : r = b.dest
    · subst hr
      simp [SignalBaseTyped.copyStep, signalConnect, updF_self, mem_setInsert]
    · simpa [SignalBaseTyped.copyStep, signalConnect, updF_ne _ _ hr] using h

theorem sigCopy_foldl_senders_mem (newS : Nat) (bs : List Binding) (acc : World)
    (b : Binding) (hb : b ∈ bs) :
    newS ∈ (bs.foldl (SignalBaseTyped.copyStep newS) acc).senders b.dest := by
  induction bs generalizing acc with
  | nil => cases hb
  | cons c rest ih =>
    rw [List.foldl_cons]
    rcases List.mem_cons.mp hb with h | h
    · subst h
      apply sigCopy_foldl_senders_pres
      simp [SignalBaseTyped.copyStep, signalConnect, updF_self, mem_setInsert]
    · exact ih _ h

/-! ### The receiver copy-constructor loop -/

theorem hasCopy_foldl_active (src newR : Nat) (ss : List Nat) (acc : World) :
    (ss.foldl (HasSlots.copyStep src newR) acc).active = acc.active := by
  induction ss generalizing acc with
  | nil => rfl
  | cons s rest ih =>
    rw [List.foldl_cons, ih]
    rfl

theorem hasCopy_foldl_slots_not_mem (src newR x : Nat) (ss : List Nat) (acc : World)
    (hx : x ∉ ss) :
    (ss.foldl (HasSlots.copyStep src newR) acc).slots x = acc.slots x := by
  induction ss generalizing acc with
  | nil => rfl
  | cons s rest ih =>
    rw [List.foldl_cons, ih _ (fun hm => hx (List.mem_cons_of_mem s hm))]
    have hxs : x ≠ s := fun he => hx (he ▸ List.mem_cons_self s rest)
    simp [HasSlots.copyStep, duplicateSlot, updF_ne _ _ hxs]

theorem hasCopy_foldl_slots_mem (src newR sid : Nat) (ss : List Nat) (acc : World)
    (hnd : ss.Nodup) (hmem : sid ∈ ss) :
    (ss.foldl (HasSlots.copyStep src newR) acc).slots sid
      = acc.slots sid
        ++ ((acc.slots sid).filter (fun b => b.dest == src)).map
             (fun b => ⟨newR, b.slot⟩) := by
  induction ss generalizing acc with
  | nil => cases hmem
  | cons s rest ih =>
    have hnds := (List.nodup_cons.mp hnd).1
    have hndr := (List.nodup_cons.mp hnd).2
    rw [List.foldl_cons]
    rcases List.mem_cons.mp hmem with h | h
    · subst h
      rw [hasCopy_foldl_slots_not_mem src newR sid rest _ hnds]
      simp [HasSlots.copyStep, duplicateSlot, updF_self]
    · have hne : sid ≠ s := fun he => hnds (he ▸ h)
      rw [ih _ hndr h]
      have hstep : (HasSlots.copyStep src newR acc s).slots sid = acc.slots sid := by
        simp [HasSlots.copyStep, duplicateSlot, updF_ne _ _ hne]
      rw [hstep]

theorem hasCopy_foldl_senders_new (src newR : Nat) (ss : List Nat) (acc : World)
    (s : Nat) :
    s ∈ (ss.foldl (HasSlots.copyStep src newR) acc).senders newR
      ↔ s ∈ ss ∨ s ∈ acc.senders newR := by
  induction ss generalizing acc with
  | nil => simp
  | cons t rest ih =>
    rw [List.foldl_cons, ih]
    have hstep : (HasSlots.copyStep src newR acc t).senders newR
        = setInsert t (acc.senders newR) := by
      simp [HasSlots.copyStep, duplicateSlot, updF_self]
    rw [hstep]
    simp [mem_setInsert]
    tauto

theorem hasCopy_foldl_senders_ne (src newR r : Nat) (hr : r ≠ newR) (ss : List Nat)
    (acc : World) :
    (ss.foldl (HasSlots.copyStep src newR) acc).senders r = acc.senders r := by
  induction ss generalizing acc with
  | nil => rfl
  | cons t rest ih =>
    rw [List.foldl_cons, ih]
    simp [HasSlots.copyStep, duplicateSlot, updF_ne _ _ hr]

/-! ### The receiver disconnectAll loop -/

theorem hasDAll_step_pres (rid sid s : Nat) (acc : World)
    (h : ∀ b ∈ acc.slots s, b.dest ≠ rid) :
    ∀ b ∈ (HasSlots.dAllStep rid acc sid).slots s, b.dest ≠ rid := by
  intro b hb
  by_cases hs : s = sid
  · subst hs
    rw [show (HasSlots.dAllStep rid acc s).slots s
        = (acc.slots s).filter (fun b => b.dest != rid) from by
      simp [HasSlots.dAllStep, disconnectSlot, updF_self]] at hb
    exact h b (List.mem_of_mem_filter hb)
  · rw [show (HasSlots.dAllStep rid acc sid).slots s = acc.slots s from by
      simp [HasSlots.dAllStep, disconnectSlot, updF_ne _ _ hs]] at hb
    exact h b hb

theorem hasDAll_foldl_pres (rid s : Nat) (ss : List Nat) (acc : World)
    (h : ∀ b ∈ acc.slots s, b.dest ≠ rid) :
    ∀ b ∈ (ss.foldl (HasSlots.dAllStep rid) acc).slots s, b.dest ≠ rid := by
  induction ss generalizing acc with
  | nil => exact h
  | cons t rest ih =>
    rw [List.foldl_cons]
    exact ih _ (hasDAll_step_pres rid t s acc h)

theorem hasDAll_foldl_mem (rid sid : Nat) (ss : List Nat) (acc : World)
    (hmem : sid ∈ ss) :
    ∀ b ∈ (ss.foldl (HasSlots.dAllStep rid) acc).slots sid, b.dest ≠ rid := by
  induction ss generalizing acc with
  | nil => cases hmem
  | cons t rest ih =>
    rw [List.foldl_cons]
    rcases List.mem_cons.mp hmem with h | h
    · subst h
      apply hasDAll_foldl_pres
      intro b hb
      rw [show (HasSlots.dAllStep rid acc sid).slots sid
          = (acc.slots sid).filter (fun b => b.dest != rid) from by
        simp [HasSlots.dAllStep, disconnectSlot, updF_self]] at hb
      simpa using (List.mem_filter.mp hb).2
    · exact ih _ h

/-! ### The signal disconnectAll / destructor loop -/

theorem sigDAll_foldl_slots (sid x : Nat) (bs : List Binding) (acc : World) :
    (bs.foldl (SignalBaseTyped.dAllStep sid) acc).slots x = acc.slots x := by
  induction bs generalizing acc with
  | nil => rfl
  | cons b rest ih =>
    rw [List.foldl_cons, ih]
    rfl

theorem sigDAll_foldl_senders (sid r : Nat) (bs : List Binding) (acc : World) :
    (bs.foldl (SignalBaseTyped.dAllStep sid) acc).senders r
      = if bs.any (fun b => b.dest == r) then setErase sid (acc.senders r)
        else acc.senders r := by
  induction bs generalizing acc with
  | nil => rfl
  | cons b rest ih =>
    rw [List.foldl_cons, ih, List.any_cons]
    by_cases hd : b.dest = r
    · have hstep : (SignalBaseTyped.dAllStep sid acc b).senders r
          = setErase sid (acc.senders r) := by
        simp [SignalBaseTyped.dAllStep, signalDisconnect, hd, updF_self]
      rw [hstep]
      by_cases hr : rest.any (fun b => b.dest == r) <;>
        simp [hd, hr, setErase_idem]
    · have hstep : (SignalBaseTyped.dAllStep sid acc b).senders r = acc.senders r := by
        simp [SignalBaseTyped.dAllStep, signalDisconnect,
          updF_ne _ _ (fun he => hd he.symm)]
      rw [hstep]
      simp [hd]

/-! ### Concrete worlds used to instantiate the theorems -/

/-- A world where every receiver is active and nothing is connected. -/
def exEmpty : World :=
  { active := fun _ => true, senders := fun _ => [], slots := fun _ => [] }

/-- Receiver 0 (active) is connected to signal 5 through slot 7; receiver 1
(inactive) has no connections. -/
def exW : World :=
  { active := fun r => if r = 1 then false else true,
    senders := fun r => if r = 0 then [5] else [],
    slots := fun s => if s = 5 then [⟨0, 7⟩] else [] }

/-- Receiver 0 (active) is connected to signal 5 twice, through slots 7
and 9. -/
def exW2 : World :=
  { active := fun _ => true,
    senders := fun r => if r = 0 then [5] else [],
    slots := fun s => if s = 5 then [⟨0, 7⟩, ⟨0, 9⟩] else [] }

/-! ### The claims -/

/-- Claim C1: two-sided teardown.  For a connected emitter `sid` and
receiver `rid`: destroying the receiver (`~HasSlots`, which runs
`HasSlots::disconnectAll`) leaves the signal with zero bindings whose
destination is `rid`, so a subsequent shoot invokes none of `rid`'s slots;
symmetrically, destroying the signal (`~SignalBaseTyped`) removes `sid`
from `rid`'s back-reference set, so a later destruction of `rid` does not
notify the dead signal. -/
theorem destroy_mutual_teardown (w : World) (sid rid : Nat)
    (hmem : sid ∈ w.senders rid) (hbind : ∃ b ∈ w.slots sid, b.dest = rid) :
    (∀ b ∈ (HasSlots.destroy w rid).slots sid, b.dest ≠ rid) ∧
    (∀ b ∈ shootTrace (HasSlots.destroy w rid) sid, b.dest ≠ rid) ∧
    sid ∉ (SignalBaseTyped.destroy w sid).senders rid := by
  have h1 : ∀ b ∈ (HasSlots.destroy w rid).slots sid, b.dest ≠ rid := by
    have he : (HasSlots.destroy w rid).slots sid
        = ((w.senders rid).foldl (HasSlots.dAllStep rid) w).slots sid := rfl
    rw [he]
    exact hasDAll_foldl_mem rid sid (w.senders rid) w hmem
  refine ⟨h1, ?_, ?_⟩
  · intro b hb
    simp only [shootTrace] at hb
    exact h1 b (List.mem_of_mem_filter hb)
  · have he : (SignalBaseTyped.destroy w sid).senders rid
        = ((w.slots sid).foldl (SignalBaseTyped.dAllStep sid) w).senders rid := rfl
    rw [he, sigDAll_foldl_senders]
    obtain ⟨b, hb, hd⟩ := hbind
    have hany : (w.slots sid).any (fun b => b.dest == rid) = true :=
      List.any_eq_true.mpr ⟨b, hb, by simp [hd]⟩
    rw [if_pos hany]
    exact setErase_not_mem sid (w.senders rid)

/-- Witness for C1 at the concrete world `exW`. -/
theorem destroy_mutual_teardown_witness :
    (5 ∈ exW.senders 0) ∧ (∃ b ∈ exW.slots 5, b.dest = 0) ∧
    ((∀ b ∈ (HasSlots.destroy exW 0).slots 5, b.dest ≠ 0) ∧
     (∀ b ∈ shootTrace (HasSlots.destroy exW 0) 5, b.dest ≠ 0) ∧
     5 ∉ (SignalBaseTyped.destroy exW 5).senders 0) :=
  ⟨by decide, by decide, destroy_mutual_teardown exW 5 0 (by decide) (by decide)⟩

/-- Claim C2: emit order equals connect order.  Connecting slots A, B, C in
that order to a fresh signal and shooting invokes exactly the sequence
[A, B, C] when all three receivers are active. -/
theorem shoot_order_eq_connect_order (w : World) (sid ra rb rc fa fb fc : Nat)
    (hfresh : w.slots sid = [])
    (ha : w.active ra = true) (hb : w.active rb = true) (hc : w.active rc = true) :
    shootTrace (connect (connect (connect w sid ra fa) sid rb fb) sid rc fc) sid
      = [⟨ra, fa⟩, ⟨rb, fb⟩, ⟨rc, fc⟩] := by
  simp [shootTrace, connect, signalConnect, updF_self, hfresh, ha, hb, hc]

/-- Witness for C2 at the concrete world `exEmpty`. -/
theorem shoot_order_eq_connect_order_witness :
    exEmpty.slots 5 = [] ∧
    shootTrace (connect (connect (connect exEmpty 5 0 10) 5 1 11) 5 2 12) 5
      = [⟨0, 10⟩, ⟨1, 11⟩, ⟨2, 12⟩] :=
  ⟨by decide, shoot_order_eq_connect_order exEmpty 5 0 1 2 10 11 12 (by decide) rfl rfl rfl⟩

/-- Claim C3: deactivation gates delivery without removing connections.
After `setActive false` on receiver `rid`, a shoot skips every binding to
`rid`; the bindings stay registered (the slot list is untouched); a later
`disconnect` still finds and removes exactly those bindings; and
`setActive true` restores the original delivery. -/
theorem setActive_gates_delivery (w : World) (sid rid : Nat)
    (hact : w.active rid = true) :
    (∀ b ∈ shootTrace (setActive w rid false) sid, b.dest ≠ rid) ∧
    (setActive w rid false).slots sid = w.slots sid ∧
    (disconnect (setActive w rid false) sid rid).slots sid
      = (w.slots sid).filter (fun b => b.dest != rid) ∧
    shootTrace (setActive (setActive w rid false) rid true) sid = shootTrace w sid := by
  refine ⟨?_, rfl, ?_, ?_⟩
  · intro b hb
    simp only [shootTrace, setActive] at hb
    have hbact := (List.mem_filter.mp hb).2
    intro he
    rw [he] at hbact
    simp [updF_self] at hbact
  · have hds : (disconnect (setActive w rid false) sid rid).slots sid
        = (disconnectLoop sid rid ((setActive w rid false).slots sid)
            ((setActive w rid false).senders rid)).1 := by
      simp [disconnect, updF_self]
    rw [hds, disconnectLoop_fst]
    rfl
  · simp only [shootTrace, setActive]
    apply List.filter_congr
    intro b _
    by_cases hd : b.dest = rid
    · simp [updF, hd, hact]
    · simp [updF, hd]

/-- Witness for C3 at the concrete world `exW` (receiver 0, signal 5). -/
theorem setActive_gates_delivery_witness :
    exW.active 0 = true ∧
    ((∀ b ∈ shootTrace (setActive exW 0 false) 5, b.dest ≠ 0) ∧
     (setActive exW 0 false).slots 5 = exW.slots 5 ∧
     (disconnect (setActive exW 0 false) 5 0).slots 5
       = (exW.slots 5).filter (fun b => b.dest != 0) ∧
     shootTrace (setActive (setActive exW 0 false) 0 true) 5 = shootTrace exW 5) :=
  ⟨by decide, setActive_gates_delivery exW 5 0 (by decide)⟩

/-- Claim C4: receiver copy clones inbound connections.  Copy-constructing
receiver `newR` from `src`: every emitter `sid` recorded on `src` gains,
for each of its bindings targeting `src`, a duplicate targeting `newR`
(appended after the existing bindings); `newR`'s back-reference set holds
exactly `src`'s emitters; `src`'s own back-references are untouched; and a
subsequent shoot invokes both `src`'s and `newR`'s slots. -/
theorem hasSlots_copy_clones_inbound (w : World) (src newR sid : Nat) (b : Binding)
    (hnd : (w.senders src).Nodup) (hmem : sid ∈ w.senders src) (hne : src ≠ newR)
    (hb : b ∈ w.slots sid) (hd : b.dest = src) (ha : w.active src = true) :
    (HasSlots.copy w src newR).slots sid
      = w.slots sid
        ++ ((w.slots sid).filter (fun x => x.dest == src)).map
             (fun x => ⟨newR, x.slot⟩) ∧
    (∀ s : Nat, s ∈ (HasSlots.copy w src newR).senders newR ↔ s ∈ w.senders src) ∧
    (HasSlots.copy w src newR).senders src = w.senders src ∧
    b ∈ shootTrace (HasSlots.copy w src newR) sid ∧
    (⟨newR, b.slot⟩ : Binding) ∈ shootTrace (HasSlots.copy w src newR) sid := by
  have hslots : (HasSlots.copy w src newR).slots sid
      = w.slots sid
        ++ ((w.slots sid).filter (fun x => x.dest == src)).map
             (fun x => ⟨newR, x.slot⟩) :=
    hasCopy_foldl_slots_mem src newR sid (w.senders src) _ hnd hmem
  have hact : (HasSlots.copy w src newR).active = updF newR (w.active src) w.active :=
    hasCopy_foldl_active src newR (w.senders src) _
  refine ⟨hslots, ?_, ?_, ?_, ?_⟩
  · intro s
    have hiff := hasCopy_foldl_senders_new src newR (w.senders src)
      { w with active := updF newR (w.active src) w.active,
               senders := updF newR [] w.senders } s
    rw [show (HasSlots.copy w src newR).senders newR
        = ((w.senders src).foldl (HasSlots.copyStep src newR)
            { w with active := updF newR (w.active src) w.active,
                     senders := updF newR [] w.senders }).senders newR from rfl, hiff]
    simp [updF_self]
  · rw [show (HasSlots.copy w src newR).senders src
        = ((w.senders src).foldl (HasSlots.copyStep src newR)
            { w with active := updF newR (w.active src) w.active,
                     senders := updF newR [] w.senders }).senders src from rfl,
      hasCopy_foldl_senders_ne src newR src hne]
    exact updF_ne _ _ hne
  · simp only [shootTrace]
    rw [List.mem_filter]
    refine ⟨hslots ▸ List.mem_append_left _ hb, ?_⟩
    rw [hact, hd, updF_ne _ _ hne, ha]
  · simp only [shootTrace]
    rw [List.mem_filter]
    constructor
    · rw [hslots]
      exact List.mem_append_right _
        (List.mem_map.mpr ⟨b, List.mem_filter.mpr ⟨hb, by simp [hd]⟩, rfl⟩)
    · rw [hact]
      simp [updF_self, ha]

/-- Witness for C4: copying receiver 0 of `exW` into fresh receiver 2. -/
theorem hasSlots_copy_clones_inbound_witness :
    (exW.senders 0).Nodup ∧ 5 ∈ exW.senders 0 ∧ 0 ≠ 2 ∧
    (⟨0, 7⟩ : Binding) ∈ exW.slots 5 ∧ (⟨0, 7⟩ : Binding).dest = 0 ∧
    exW.active 0 = true ∧
    ((HasSlots.copy exW 0 2).slots 5
      = exW.slots 5
        ++ ((exW.slots 5).filter (fun x => x.dest == 0)).map (fun x => ⟨2, x.slot⟩) ∧
     (∀ s : Nat, s ∈ (HasSlots.copy exW 0 2).senders 2 ↔ s ∈ exW.senders 0) ∧
     (HasSlots.copy exW 0 2).senders 0 = exW.senders 0 ∧
     (⟨0, 7⟩ : Binding) ∈ shootTrace (HasSlots.copy exW 0 2) 5 ∧
     (⟨2, 7⟩ : Binding) ∈ shootTrace (HasSlots.copy exW 0 2) 5) :=
  ⟨by decide, by decide, by decide, by decide, by decide, by decide,
   hasSlots_copy_clones_inbound exW 0 2 5 ⟨0, 7⟩ (by decide) (by decide) (by decide)
     (by decide) (by decide) (by decide)⟩

/-- Claim C5: emitter copy clones outbound connections.  Copy-constructing
signal `newS` from `src` gives `newS` a clone of every one of `src`'s
bindings (in order) and records `newS` on each bound receiver; `src`'s own
binding list is untouched, and shooting `newS` produces exactly the trace
that shooting `src` would, without `src` having been shot or modified. -/
theorem signal_copy_clones_outbound (w : World) (src newS : Nat) (hne : newS ≠ src) :
    (SignalBaseTyped.copy w src newS).slots newS = w.slots src ∧
    (SignalBaseTyped.copy w src newS).slots src = w.slots src ∧
    (∀ b ∈ w.slots src, newS ∈ (SignalBaseTyped.copy w src newS).senders b.dest) ∧
    shootTrace (SignalBaseTyped.copy w src newS) newS = shootTrace w src ∧
    shootTrace (SignalBaseTyped.copy w src newS) src = shootTrace w src := by
  have hnew : (SignalBaseTyped.copy w src newS).slots newS = w.slots src := by
    rw [show (SignalBaseTyped.copy w src newS).slots newS
        = ((w.slots src).foldl (SignalBaseTyped.copyStep newS)
            { w with slots := updF newS [] w.slots }).slots newS from rfl,
      sigCopy_foldl_slots_new]
    simp [updF_self]
  have hsrc : (SignalBaseTyped.copy w src newS).slots src = w.slots src := by
    rw [show (SignalBaseTyped.copy w src newS).slots src
        = ((w.slots src).foldl (SignalBaseTyped.copyStep newS)
            { w with slots := updF newS [] w.slots }).slots src from rfl,
      sigCopy_foldl_slots_ne newS src (fun h => hne h.symm)]
    exact updF_ne _ _ (fun h => hne h.symm)
  have hact : (SignalBaseTyped.copy w src newS).active = w.active :=
    sigCopy_foldl_active newS (w.slots src) _
  refine ⟨hnew, hsrc, ?_, ?_, ?_⟩
  · intro b hb
    exact sigCopy_foldl_senders_mem newS (w.slots src) _ b hb
  · simp only [shootTrace]
    rw [hnew, hact]
  · simp only [shootTrace]
    rw [hsrc, hact]

/-- Witness for C5: copying signal 5 of `exW` into fresh signal 6. -/
theorem signal_copy_clones_outbound_witness :
    (6 : Nat) ≠ 5 ∧
    ((SignalBaseTyped.copy exW 5 6).slots 6 = exW.slots 5 ∧
     (SignalBaseTyped.copy exW 5 6).slots 5 = exW.slots 5 ∧
     (∀ b ∈ exW.slots 5, 6 ∈ (SignalBaseTyped.copy exW 5 6).senders b.dest) ∧
     shootTrace (SignalBaseTyped.copy exW 5 6) 6 = shootTrace exW 5 ∧
     shootTrace (SignalBaseTyped.copy exW 5 6) 5 = shootTrace exW 5) :=
  ⟨by decide, signal_copy_clones_outbound exW 5 6 (by decide)⟩

/-- Claim C10: duplicated bindings land at the end.  When receiver `src` is
copy-constructed into `newR`, every duplicated binding is appended at the
end of emitter `sid`'s list, so a subsequent shoot fires `newR`'s slots
after all bindings that existed before the copy, and the pre-copy bindings
keep their positions (the old trace is a prefix of the new one). -/
theorem duplicated_bindings_append_at_end (w : World) (src newR sid : Nat)
    (hnd : (w.senders src).Nodup) (hmem : sid ∈ w.senders src) (_hne : src ≠ newR)
    (hfresh : ∀ b ∈ w.slots sid, b.dest ≠ newR) (ha : w.active src = true) :
    shootTrace (HasSlots.copy w src newR) sid
      = shootTrace w sid
        ++ ((w.slots sid).filter (fun x => x.dest == src)).map
             (fun x => ⟨newR, x.slot⟩) := by
  have hslots : (HasSlots.copy w src newR).slots sid
      = w.slots sid
        ++ ((w.slots sid).filter (fun x => x.dest == src)).map
             (fun x => ⟨newR, x.slot⟩) :=
    hasCopy_foldl_slots_mem src newR sid (w.senders src) _ hnd hmem
  have hact : (HasSlots.copy w src newR).active = updF newR (w.active src) w.active :=
    hasCopy_foldl_active src newR (w.senders src) _
  simp only [shootTrace]
  rw [hslots, hact, List.filter_append]
  congr 1
  · apply List.filter_congr
    intro x hx
    rw [updF_ne _ _ (hfresh x hx)]
  · apply List.filter_eq_self.mpr
    intro x hx
    obtain ⟨y, _, hxy⟩ := List.mem_map.mp hx
    rw [← hxy]
    simp [updF_self, ha]

/-- Witness for C10 at `exW` (copy receiver 0 into receiver 2, emitter 5). -/
theorem duplicated_bindings_append_at_end_witness :
    (exW.senders 0).Nodup ∧ 5 ∈ exW.senders 0 ∧ 0 ≠ 2 ∧
    (∀ b ∈ exW.slots 5, b.dest ≠ 2) ∧ exW.active 0 = true ∧
    shootTrace (HasSlots.copy exW 0 2) 5
      = shootTrace exW 5
        ++ ((exW.slots 5).filter (fun x => x.dest == 0)).map (fun x => ⟨2, x.slot⟩) :=
  ⟨by decide, by decide, by decide, by decide, by decide,
   duplicated_bindings_append_at_end exW 0 2 5 (by decide) (by decide) (by decide)
     (by decide) (by decide)⟩

/-- Claim C6: slot failure during emit.  If, among the bindings eligible in
this shoot (active destinations, in connection order), those before the
k-th do not raise and the k-th does, then the shoot fires exactly the
eligible bindings before the k-th, the k-th binding's failure escapes to
the caller untranslated and without retry, and the world — in particular
the signal's binding list — is unchanged. -/
theorem shoot_exception_propagates (w : World) (sid : Nat) (raises : Binding → Bool)
    (pre post : List Binding) (bk : Binding)
    (hsplit : (w.slots sid).filter (fun b => w.active b.dest) = pre ++ bk :: post)
    (hpre : ∀ b ∈ pre, raises b = false) (hk : raises bk = true) :
    shootExc w sid raises = (w, pre, some bk) := by
  simp only [shootExc]
  rw [shootExcList_eq_of_split w.active raises (w.slots sid) pre post bk hsplit hpre hk]

/-- Witness for C6 at `exW2`: the second of two eligible slots raises. -/
theorem shoot_exception_propagates_witness :
    (exW2.slots 5).filter (fun b => exW2.active b.dest)
      = [⟨0, 7⟩] ++ (⟨0, 9⟩ : Binding) :: [] ∧
    (∀ b ∈ ([⟨0, 7⟩] : List Binding), (fun b : Binding => b.slot == 9) b = false) ∧
    (fun b : Binding => b.slot == 9) ⟨0, 9⟩ = true ∧
    shootExc exW2 5 (fun b => b.slot == 9) = (exW2, [⟨0, 7⟩], some ⟨0, 9⟩) :=
  ⟨by decide, by decide, by decide,
   shoot_exception_propagates exW2 5 (fun b => b.slot == 9) [⟨0, 7⟩] [] ⟨0, 9⟩
     (by decide) (by decide) (by decide)⟩

/-- Claim C7: notification counting on multi-binding removal.
`disconnect` removes every binding to `rid` and, although the loop calls
`signalDisconnect` once per removed binding, the net effect on the
back-reference set is a single erase (the set makes repeated erases
idempotent), so the back-reference is removed exactly once.
`disconnectAll` empties the binding list, erases the signal exactly once
from each receiver that had at least one binding, and does not touch
receivers that had none. -/
theorem disconnect_notifies_once_net (w : World) (sid rid : Nat)
    (hbind : ∃ b ∈ w.slots sid, b.dest = rid) :
    (disconnect w sid rid).slots sid = (w.slots sid).filter (fun b => b.dest != rid) ∧
    (disconnect w sid rid).senders rid = setErase sid (w.senders rid) ∧
    sid ∉ (disconnect w sid rid).senders rid ∧
    (SignalBaseTyped.disconnectAll w sid).slots sid = [] ∧
    (∀ r : Nat, (∃ b ∈ w.slots sid, b.dest = r) →
        (SignalBaseTyped.disconnectAll w sid).senders r = setErase sid (w.senders r)) ∧
    (∀ r : Nat, (∀ b ∈ w.slots sid, b.dest ≠ r) →
        (SignalBaseTyped.disconnectAll w sid).senders r = w.senders r) := by
  obtain ⟨b0, hb0, hd0⟩ := hbind
  have hany : (w.slots sid).any (fun b => b.dest == rid) = true :=
    List.any_eq_true.mpr ⟨b0, hb0, by simp [hd0]⟩
  have hslots : (disconnect w sid rid).slots sid
      = (w.slots sid).filter (fun b => b.dest != rid) := by
    simp [disconnect, updF_self, disconnectLoop_fst]
  have hsend : (disconnect w sid rid).senders rid = setErase sid (w.senders rid) := by
    have : (disconnect w sid rid).senders rid
        = (disconnectLoop sid rid (w.slots sid) (w.senders rid)).2 := by
      simp [disconnect, updF_self]
    rw [this, disconnectLoop_snd, if_pos hany]
  have hda : ∀ r : Nat, (SignalBaseTyped.disconnectAll w sid).senders r
      = if (w.slots sid).any (fun b => b.dest == r) then setErase sid (w.senders r)
        else w.senders r := by
    intro r
    rw [show (SignalBaseTyped.disconnectAll w sid).senders r
        = ((w.slots sid).foldl (SignalBaseTyped.dAllStep sid) w).senders r from rfl,
      sigDAll_foldl_senders]
  refine ⟨hslots, hsend, ?_, ?_, ?_, ?_⟩
  · rw [hsend]
    exact setErase_not_mem sid (w.senders rid)
  · simp [SignalBaseTyped.disconnectAll, updF_self]
  · intro r hr
    obtain ⟨c, hc, hcd⟩ := hr
    rw [hda r, if_pos (List.any_eq_true.mpr ⟨c, hc, by simp [hcd]⟩)]
  · intro r hr
    have : (w.slots sid).any (fun b => b.dest == r) = false := by
      simp only [List.any_eq_false]
      intro c hc
      simp [hr c hc]
    rw [hda r, this]
    simp

/-- Witness for C7 at `exW2`: signal 5 holds two bindings to receiver 0. -/
theorem disconnect_notifies_once_net_witness :
    (∃ b ∈ exW2.slots 5, b.dest = 0) ∧
    ((disconnect exW2 5 0).slots 5 = (exW2.slots 5).filter (fun b => b.dest != 0) ∧
     (disconnect exW2 5 0).senders 0 = setErase 5 (exW2.senders 0) ∧
     5 ∉ (disconnect exW2 5 0).senders 0 ∧
     (SignalBaseTyped.disconnectAll exW2 5).slots 5 = [] ∧
     (∀ r : Nat, (∃ b ∈ exW2.slots 5, b.dest = r) →
         (SignalBaseTyped.disconnectAll exW2 5).senders r = setErase 5 (exW2.senders r)) ∧
     (∀ r : Nat, (∀ b ∈ exW2.slots 5, b.dest ≠ r) →
         (SignalBaseTyped.disconnectAll exW2 5).senders r = exW2.senders r)) :=
  ⟨by decide, disconnect_notifies_once_net exW2 5 0 (by decide)⟩

/-- Claim C8: duplicate connections are not de-duplicated.  Connecting the
same (receiver, slot) pair twice to a fresh signal yields two bindings, and
one shoot invokes that slot twice. -/
theorem duplicate_connect_delivers_twice (w : World) (sid rid fid : Nat)
    (hfresh : w.slots sid = []) (ha : w.active rid = true) :
    (connect (connect w sid rid fid) sid rid fid).slots sid
      = [⟨rid, fid⟩, ⟨rid, fid⟩] ∧
    shootTrace (connect (connect w sid rid fid) sid rid fid) sid
      = [⟨rid, fid⟩, ⟨rid, fid⟩] := by
  constructor <;> simp [connect, signalConnect, shootTrace, updF_self, hfresh, ha]

/-- Witness for C8 at `exEmpty`. -/
theorem duplicate_connect_delivers_twice_witness :
    exEmpty.slots 5 = [] ∧ exEmpty.active 0 = true ∧
    ((connect (connect exEmpty 5 0 7) 5 0 7).slots 5 = [⟨0, 7⟩, ⟨0, 7⟩] ∧
     shootTrace (connect (connect exEmpty 5 0 7) 5 0 7) 5 = [⟨0, 7⟩, ⟨0, 7⟩]) :=
  ⟨by decide, by decide, duplicate_connect_delivers_twice exEmpty 5 0 7 (by decide) (by decide)⟩

/-- Claim C9: benign no-ops and idempotence.  Disconnecting a receiver that
has no binding on the signal leaves the world exactly as it was (bindings
and back-reference set included); shooting a signal with zero bindings
invokes nothing; and a second `disconnect` of the same receiver right after
a first one is a no-op. -/
theorem disconnect_noop_and_idempotent (w : World) (sid rid : Nat) :
    ((∀ b ∈ w.slots sid, b.dest ≠ rid) → disconnect w sid rid = w) ∧
    (w.slots sid = [] → shootTrace w sid = []) ∧
    disconnect (disconnect w sid rid) sid rid = disconnect w sid rid := by
  refine ⟨disconnect_eq_of_no_match w sid rid, ?_, ?_⟩
  · intro h
    simp [shootTrace, h]
  · apply disconnect_eq_of_no_match
    intro b hb
    have hds : (disconnect w sid rid).slots sid
        = (w.slots sid).filter (fun b => b.dest != rid) := by
      simp [disconnect, updF_self, disconnectLoop_fst]
    rw [hds] at hb
    simpa using (List.mem_filter.mp hb).2

/-- Witness for C9: receiver 1 was never connected to signal 5 of `exW`;
signal 9 has zero bindings; double disconnect of receiver 0. -/
theorem disconnect_noop_and_idempotent_witness :
    (∀ b ∈ exW.slots 5, b.dest ≠ 1) ∧ disconnect exW 5 1 = exW ∧
    exW.slots 9 = [] ∧ shootTrace exW 9 = [] ∧
    disconnect (disconnect exW 5 0) 5 0 = disconnect exW 5 0 :=
  ⟨by decide, (disconnect_noop_and_idempotent exW 5 1).1 (by decide),
   by decide, (disconnect_noop_and_idempotent exW 9 1).2.1 (by decide),
   (disconnect_noop_and_idempotent exW 5 0).2.2⟩

end YipBox
